import Mathlib

/-!
Shallow embedding of `scripts/configure.py` (ICO-decomp).

The script translates a list of linker entries (from the external `splat`
splitting library) into a ninja build-graph file, and offers two cleanup
command-line paths.  We model:

* pathlib's `Path.name` / `Path.suffix` (used via `object_path.suffix == ".o"`);
* the segment records the script consumes: each carries its `type` string
  (printed, and indexed by `seg.type[0]`) and the class the `isinstance`
  dispatch observes (`CommonSegAsm` / `CommonSegData` / `CommonSegDatabin` /
  `CommonSegRodatabin` / `CommonSegC` / anything else), abstracted as `SegKind`;
* the ninja `Writer` as a list of emitted statements (rules and build edges);
  the writer opens `build.ninja` and writes each rule/edge immediately, so on
  an error the statements emitted so far are the file's contents;
* the `built_objects` set as an insertion-ordered duplicate-free list (Python's
  set iteration order is unspecified; the model fixes insertion order, and all
  theorems about it are stated as membership/no-duplicate facts);
* `sys.exit(1)` and the uncaught `IndexError` from `seg.type[0]` on an empty
  tag as an `EmitError` value (either way the interpreter exits non-zero);
* the filesystem touched by `clean`/`--cleansrc` as a predicate on paths,
  a path being a list of components (`shutil.rmtree` removes a whole subtree,
  `os.remove` one file; `os.remove` guarded by `os.path.exists` is the same
  function on this model).
-/

namespace ICO

/-- Characters after the last `'/'` of the path: `acc` holds the (reversed)
current component, reset at each separator. -/
def lastComponent : List Char → List Char → List Char
  | [], acc => acc.reverse
  | ch :: cs, acc => if ch = '/' then lastComponent cs [] else lastComponent cs (ch :: acc)

/-- pathlib `Path.name`: the final path component. -/
def pathName (p : String) : String := String.mk (lastComponent p.toList [])

/-- Index of the last `'.'` in a character list, if any. -/
def lastDotIdx : List Char → Option Nat
  | [] => none
  | ch :: cs =>
    match lastDotIdx cs with
    | some i => some (i + 1)
    | none => if ch = '.' then some 0 else none

/-- pathlib `Path.suffix`: the final component's extension including the dot;
empty when the last dot is at position 0, missing, or final. -/
def pathSuffix (p : String) : String :=
  let n := (pathName p).toList
  match lastDotIdx n with
  | some i => if 0 < i ∧ i < n.length - 1 then String.mk (n.drop i) else ""
  | none => ""

/- Fixed path constants of the script. -/

def BASENAME : String := "SCES_507.60"

def LD_PATH : String := BASENAME ++ ".ld"

def ELF_PATH : String := "build/" ++ BASENAME

def MAP_PATH : String := "build/" ++ BASENAME ++ ".map"

def PRE_ELF_PATH : String := "build/" ++ BASENAME ++ ".elf"

def COMMON_INCLUDES : String :=
  "-Iinclude -I include/sdk/common -I include/sdk/ee -I include/sdk -I include/gcc"

def COMPILER : String := "ee-gcc2.96"

/-- `GAME_CC_DIR`, parametrised by the repository root path (`ROOT`). -/
def GAME_CC_DIR (root : String) : String := root ++ "/tools/cc/" ++ COMPILER ++ "/bin"

def GAME_COMPILE_CMD (root : String) : String :=
  GAME_CC_DIR root ++ "/ee-gcc -c " ++ COMMON_INCLUDES ++ " -O2 -g2 $regnames"

def cross : String := "mips-linux-gnu-"

def ld_args : String :=
  "-EL -T config/undefined_syms_auto.txt -T config/undefined_funcs_auto.txt -Map $mapfile -T $in -o $out"

/-- Which `isinstance` branch of the dispatch in `build_stuff` a segment object
satisfies: the five checked `splat` segment classes, or anything else. -/
inductive SegKind where
  | asm | data | databin | rodatabin | c | other
  deriving DecidableEq

/-- The part of a `splat` segment the script reads: its `type` string and the
class observed by `isinstance`. -/
structure Segment where
  type : String
  kind : SegKind
  deriving DecidableEq

/-- `splat.segtypes.linker_entry.LinkerEntry` as consumed by the script. -/
structure LinkerEntry where
  segment : Segment
  object_path : Option String
  src_paths : List String
  deriving DecidableEq

/-- One ninja build edge as written by `ninja_syntax.Writer.build`; `vars`
models the `variables` keyword argument (that name is reserved in Lean). -/
structure BuildEdge where
  outputs : List String
  rule : String
  inputs : List String
  implicit : List String
  vars : List (String × String)
  implicit_outputs : List String
  deriving DecidableEq

/-- One statement written to `build.ninja`: a rule declaration or a build edge. -/
inductive Stmt where
  | rule (name : String) (description : String) (command : String)
  | build (edge : BuildEdge)
  deriving DecidableEq

/-- The five `ninja.rule` declarations written before the entry loop. -/
def rules (root : String) : List Stmt :=
  [ .rule "as" "as $in"
      ("cpp " ++ COMMON_INCLUDES ++ " $in | iconv -f=UTF-8 -t=EUC-JP $in | " ++ cross ++
        "as -no-pad-sections -EL -march=5900 -mabi=eabi -Iinclude -o $out"),
    .rule "cc" "cc $in"
      (GAME_COMPILE_CMD root ++ " $in -o $out && " ++ cross ++ "strip $out -N dummy-symbol-name"),
    .rule "ld" "link $out" (cross ++ "ld " ++ ld_args),
    .rule "sha1sum" "sha1sum $in" "sha1sum -c $in && touch $out",
    .rule "elf" "elf $out" (cross ++ "objcopy $in $out -O binary") ]

/-- `built_objects.add`, with the Python set modelled as an insertion-ordered
duplicate-free list. -/
def addBuilt (built : List String) (p : String) : List String :=
  if p ∈ built then built else built ++ [p]

/-- The nested `build` helper of `build_stuff`: normalises `object_paths` to a
list, then for each object path records it in `built_objects` when its suffix
is `.o` and writes one edge whose outputs are all the object paths.  Returns
the updated tracked list and the statements written. -/
def build (built : List String) (object_paths : List String) (src_paths : List String)
    (task : String) (vars : List (String × String))
    (implicit_outputs : List String) : List String × List Stmt :=
  object_paths.foldl
    (fun acc op =>
      (if pathSuffix op = ".o" then addBuilt acc.1 op else acc.1,
       acc.2 ++ [Stmt.build ⟨object_paths, task, src_paths, [], vars, implicit_outputs⟩]))
    (built, [])

/-- How one iteration of the entry loop can fail: the explicit
`sys.exit(1)` after printing the unsupported-segment diagnostic, or the
uncaught `IndexError` from `seg.type[0]` on an empty tag. -/
inductive EmitError where
  | unsupportedSegment (tag : String)
  | indexError
  deriving DecidableEq

/-- One iteration of the `for entry in linker_entries` loop of `build_stuff`:
first the marker check `seg.type[0] == "."` (which raises `IndexError` on an
empty tag), then the absent-object-path skip, then the `isinstance` dispatch. -/
def processEntry (built : List String) (e : LinkerEntry) :
    Except EmitError (List String × List Stmt) :=
  match e.segment.type.toList with
  | [] => .error .indexError
  | ch :: _ =>
    if ch = '.' then .ok (built, [])
    else
      match e.object_path with
      | none => .ok (built, [])
      | some op =>
        match e.segment.kind with
        | .asm => .ok (build built [op] e.src_paths "as" [("override", "")] [])
        | .data => .ok (build built [op] e.src_paths "as" [("override", "")] [])
        | .databin => .ok (build built [op] e.src_paths "as" [("override", "")] [])
        | .rodatabin => .ok (build built [op] e.src_paths "as" [("override", "")] [])
        | .c => .ok (build built [op] e.src_paths "cc" [] [])
        | .other => .error (.unsupportedSegment e.segment.type)

/-- The whole entry loop: threads `built_objects` and the statements written so
far, stopping at the first error (the interpreter unwinds out of the loop). -/
def processEntries (built : List String) (out : List Stmt) :
    List LinkerEntry → List String × List Stmt × Option EmitError
  | [] => (built, out, none)
  | e :: es =>
    match processEntry built e with
    | .ok (b, s) => processEntries b (out ++ s) es
    | .error err => (built, out, some err)

/-- The trailing `ld` edge: output `PRE_ELF_PATH`, input `LD_PATH`, the tracked
objects as implicit inputs, and the map file passed as the `mapfile` variable. -/
def ldEdge (built : List String) : Stmt :=
  .build ⟨[PRE_ELF_PATH], "ld", [LD_PATH], built, [("mapfile", MAP_PATH)], []⟩

/-- The trailing `elf` (objcopy raw-binary extraction) edge. -/
def elfEdge : Stmt := .build ⟨[ELF_PATH], "elf", [PRE_ELF_PATH], [], [], []⟩

/-- The trailing `sha1sum` checksum edge: digest file as input, final image as
implicit dependency, sentinel `.ok` file as output. -/
def shaEdge : Stmt :=
  .build ⟨[ELF_PATH ++ ".ok"], "sha1sum", ["checksum-" ++ BASENAME ++ ".sha1"], [ELF_PATH], [], []⟩

/-- Result of one run of `build_stuff`: the statements written to `build.ninja`
(the file is opened and written incrementally, so on an error `output` is the
partial file contents), the tracked object list, and the error if any. -/
structure EmitResult where
  output : List Stmt
  builtObjects : List String
  err : Option EmitError
  deriving DecidableEq

/-- `build_stuff`: writes the five rules, processes every entry, and on success
appends the three trailing edges.  On an error the rules and the per-entry
edges emitted so far have already been written. -/
def build_stuff (root : String) (linker_entries : List LinkerEntry) : EmitResult :=
  match processEntries [] [] linker_entries with
  | (built, out, none) => ⟨rules root ++ out ++ [ldEdge built, elfEdge, shaEdge], built, none⟩
  | (built, out, some e) => ⟨rules root ++ out, built, some e⟩

/-- Process exit status determined by how `build_stuff` ended: `sys.exit(1)`
for the unsupported-segment diagnostic, exit code 1 for an uncaught
`IndexError`, 0 when the script falls off the end. -/
def exitCode : Option EmitError → Nat
  | none => 0
  | some _ => 1

/-- The diagnostic printed by the script itself (the `IndexError` traceback is
the interpreter's, not a diagnostic of the script). -/
def diagnostic : Option EmitError → Option String
  | some (.unsupportedSegment t) => some ("ERROR: Unsupported build segment type " ++ t)
  | _ => none

/-- The two boolean command-line flags. -/
structure Args where
  clean : Bool
  cleansrc : Bool

/-- Exit status of the `__main__` block: `--clean` and `--cleansrc` call
`exit(0)` after their cleanup; the default path runs the splitter (external,
out of scope) and then `build_stuff`. -/
def mainExitCode (args : Args) (root : String) (entries : List LinkerEntry) : Nat :=
  if args.clean then 0
  else if args.cleansrc then 0
  else exitCode (build_stuff root entries).err

/-- Filesystem model for the cleanup paths: which paths exist, a path being a
list of components relative to the working directory. -/
def FS : Type := List String → Bool

/-- `os.remove` (the `os.path.exists` guard leaves the model unchanged when the
file is absent). -/
def removeFile (fs : FS) (p : List String) : FS :=
  fun q => if q = p then false else fs q

/-- `q` is the directory `d` itself or lies below it (component-wise). -/
def inTree : List String → List String → Bool
  | [], _ => true
  | _ :: _, [] => false
  | d :: ds, q :: qs => if d = q then inTree ds qs else false

/-- `shutil.rmtree(..., ignore_errors=True)`: removes the directory and every
path below it. -/
def rmtree (fs : FS) (p : List String) : FS :=
  fun q => if inTree p q then false else fs q

/-- The `clean` function: removes `.splache`, the generated linker script and
the `asm`, `assets` and `build` trees. -/
def clean (fs : FS) : FS :=
  rmtree (rmtree (rmtree (removeFile (removeFile fs [".splache"]) [LD_PATH]) ["asm"]) ["assets"])
    ["build"]

/-- The `--cleansrc` action: `shutil.rmtree("src", ignore_errors=True)`. -/
def cleanSrc (fs : FS) : FS := rmtree fs ["src"]

/-- Statements written for a single entry (none when the iteration errors: the
loop unwinds before writing anything for it). -/
def stmtsOf : Except EmitError (List String × List Stmt) → List Stmt
  | .ok (_, s) => s
  | .error _ => []

/-- An entry that reaches the dispatch and emits an edge with object path `p`:
non-empty tag not starting with the marker, object path present, and one of the
five recognised segment classes. -/
def emits (e : LinkerEntry) (p : String) : Prop :=
  e.segment.type ≠ "" ∧ e.segment.type.toList.head? ≠ some '.' ∧
    e.object_path = some p ∧ e.segment.kind ≠ SegKind.other

/-- An entry on which the dispatch hits the unsupported-segment branch:
non-empty tag not starting with the marker, object path present, none of the
five recognised segment classes. -/
def isUnsupported (e : LinkerEntry) : Prop :=
  e.segment.type ≠ "" ∧ e.segment.type.toList.head? ≠ some '.' ∧
    e.object_path ≠ none ∧ e.segment.kind = SegKind.other

end ICO

namespace ICO

/-! ### Basic lemmas about the embedding -/

theorem string_empty_toList : ("" : String).toList = [] := rfl

theorem string_ne_empty_of_toList_cons {s : String} {ch : Char} {cs : List Char}
    (h : s.toList = ch :: cs) : s ≠ "" := by
  intro he
  rw [he, string_empty_toList] at h
  exact List.noConfusion h

theorem string_toList_cons_of_ne_empty {s : String} (h : s ≠ "") :
    ∃ ch cs, s.toList = ch :: cs := by
  rcases htl : s.toList with _ | ⟨ch, cs⟩
  · exfalso
    apply h
    cases s with
    | mk data =>
      have hd : data = [] := htl
      rw [hd]
  · exact ⟨ch, cs, rfl⟩

theorem build_singleton (built : List String) (op : String) (srcs : List String)
    (task : String) (vars : List (String × String)) (iouts : List String) :
    build built [op] srcs task vars iouts =
      (if pathSuffix op = ".o" then addBuilt built op else built,
       [Stmt.build ⟨[op], task, srcs, [], vars, iouts⟩]) := rfl

theorem mem_addBuilt (built : List String) (p q : String) :
    q ∈ addBuilt built p ↔ q ∈ built ∨ q = p := by
  by_cases hp : p ∈ built
  · simp only [addBuilt, if_pos hp]
    constructor
    · exact Or.inl
    · rintro (hq | rfl)
      · exact hq
      · exact hp
  · simp [addBuilt, hp]

theorem nodup_addBuilt {built : List String} (p : String) (h : built.Nodup) :
    (addBuilt built p).Nodup := by
  by_cases hp : p ∈ built
  · simpa [addBuilt, hp] using h
  · simp [addBuilt, hp, List.nodup_append, h]

/-! ### Case equations for one iteration of the entry loop -/

theorem processEntry_empty (built : List String) (e : LinkerEntry)
    (h : e.segment.type.toList = []) :
    processEntry built e = .error .indexError := by
  have h' : e.segment.type.data = [] := h
  simp [processEntry, h']

theorem processEntry_marker (built : List String) (e : LinkerEntry) (ch : Char)
    (cs : List Char) (h : e.segment.type.toList = ch :: cs) (hch : ch = '.') :
    processEntry built e = .ok (built, []) := by
  have h' : e.segment.type.data = ch :: cs := h
  simp [processEntry, h', hch]

theorem processEntry_noobj (built : List String) (e : LinkerEntry) (ch : Char)
    (cs : List Char) (h : e.segment.type.toList = ch :: cs) (hch : ch ≠ '.')
    (ho : e.object_path = none) :
    processEntry built e = .ok (built, []) := by
  have h' : e.segment.type.data = ch :: cs := h
  simp [processEntry, h', hch, ho]

theorem processEntry_unsupported (built : List String) (e : LinkerEntry) (ch : Char)
    (cs : List Char) (h : e.segment.type.toList = ch :: cs) (hch : ch ≠ '.')
    (op : String) (ho : e.object_path = some op) (hk : e.segment.kind = SegKind.other) :
    processEntry built e = .error (.unsupportedSegment e.segment.type) := by
  have h' : e.segment.type.data = ch :: cs := h
  simp [processEntry, h', hch, ho, hk]

theorem processEntry_emit (built : List String) (e : LinkerEntry) (ch : Char)
    (cs : List Char) (h : e.segment.type.toList = ch :: cs) (hch : ch ≠ '.')
    (op : String) (ho : e.object_path = some op) (hk : e.segment.kind ≠ SegKind.other) :
    ∃ s, processEntry built e =
        .ok (if pathSuffix op = ".o" then addBuilt built op else built, s) ∧
      ∀ ed, Stmt.build ed ∈ s → ed.rule = "as" ∨ ed.rule = "cc" := by
  have h' : e.segment.type.data = ch :: cs := h
  rcases hk' : e.segment.kind
  case other => exact absurd hk' hk
  case c =>
    refine ⟨[Stmt.build ⟨[op], "cc", e.src_paths, [], [], []⟩], ?_, ?_⟩
    · simp [processEntry, h', hch, ho, hk', build_singleton]
    · intro ed hed
      simp only [List.mem_singleton, Stmt.build.injEq] at hed
      subst hed
      exact Or.inr rfl
  all_goals
    refine ⟨[Stmt.build ⟨[op], "as", e.src_paths, [], [("override", "")], []⟩],
      by simp [processEntry, h', hch, ho, hk', build_singleton], ?_⟩
  all_goals
    intro ed hed
  all_goals
    simp only [List.mem_singleton, Stmt.build.injEq] at hed
  all_goals
    subst hed
  all_goals
    exact Or.inl rfl

/-! ### Step equations for the whole loop -/

theorem processEntries_nil (built : List String) (out : List Stmt) :
    processEntries built out [] = (built, out, none) := rfl

theorem processEntries_cons_ok (built : List String) (out : List Stmt)
    (e : LinkerEntry) (es : List LinkerEntry) (b : List String) (s : List Stmt)
    (h : processEntry built e = .ok (b, s)) :
    processEntries built out (e :: es) = processEntries b (out ++ s) es := by
  simp [processEntries, h]

theorem processEntries_cons_err (built : List String) (out : List Stmt)
    (e : LinkerEntry) (es : List LinkerEntry) (err : EmitError)
    (h : processEntry built e = .error err) :
    processEntries built out (e :: es) = (built, out, some err) := by
  simp [processEntries, h]

theorem build_stuff_ok (root : String) (entries : List LinkerEntry)
    (built : List String) (out : List Stmt)
    (h : processEntries [] [] entries = (built, out, none)) :
    build_stuff root entries =
      ⟨rules root ++ out ++ [ldEdge built, elfEdge, shaEdge], built, none⟩ := by
  simp [build_stuff, h]

theorem build_stuff_err (root : String) (entries : List LinkerEntry)
    (built : List String) (out : List Stmt) (err : EmitError)
    (h : processEntries [] [] entries = (built, out, some err)) :
    build_stuff root entries = ⟨rules root ++ out, built, some err⟩ := by
  simp [build_stuff, h]

end ICO

namespace ICO

theorem not_emits_marker (e : LinkerEntry) (ch : Char) (cs : List Char)
    (h : e.segment.type.toList = ch :: cs) (hch : ch = '.') (p : String) :
    ¬ emits e p := by
  rintro ⟨-, hh, -, -⟩
  apply hh
  rw [h, hch]
  simp

theorem not_emits_noobj (e : LinkerEntry) (ho : e.object_path = none) (p : String) :
    ¬ emits e p := by
  rintro ⟨-, -, hop, -⟩
  rw [ho] at hop
  exact Option.noConfusion hop

theorem emits_iff_eq (e : LinkerEntry) (ch : Char) (cs : List Char)
    (h : e.segment.type.toList = ch :: cs) (hch : ch ≠ '.')
    (op : String) (ho : e.object_path = some op) (hk : e.segment.kind ≠ SegKind.other)
    (p : String) : emits e p ↔ p = op := by
  constructor
  · rintro ⟨-, -, hop, -⟩
    rw [ho] at hop
    simpa using hop.symm
  · rintro rfl
    refine ⟨string_ne_empty_of_toList_cons h, ?_, ho, hk⟩
    rw [h]
    simpa using hch

theorem processEntries_built_spec (es : List LinkerEntry) :
    ∀ (built : List String) (out : List Stmt),
      (processEntries built out es).2.2 = none → built.Nodup →
      (processEntries built out es).1.Nodup ∧
        ∀ p, p ∈ (processEntries built out es).1 ↔
          (p ∈ built ∨ (pathSuffix p = ".o" ∧ ∃ e ∈ es, emits e p)) := by
  induction es with
  | nil =>
    intro built out _ hnd
    exact ⟨hnd, fun p => by simp [processEntries_nil]⟩
  | cons e es ih =>
    intro built out herr hnd
    rcases htl : e.segment.type.toList with _ | ⟨ch, cs⟩
    · rw [processEntries_cons_err built out e es _ (processEntry_empty built e htl)] at herr
      exact absurd herr (by simp)
    · by_cases hch : ch = '.'
      · rw [processEntries_cons_ok built out e es built []
          (processEntry_marker built e ch cs htl hch)] at herr ⊢
        obtain ⟨h1, h2⟩ := ih built (out ++ []) herr hnd
        refine ⟨h1, fun p => ?_⟩
        rw [h2 p]
        simp [List.exists_mem_cons_iff, not_emits_marker e ch cs htl hch p]
      · rcases ho : e.object_path with _ | op
        · rw [processEntries_cons_ok built out e es built []
            (processEntry_noobj built e ch cs htl hch ho)] at herr ⊢
          obtain ⟨h1, h2⟩ := ih built (out ++ []) herr hnd
          refine ⟨h1, fun p => ?_⟩
          rw [h2 p]
          simp [List.exists_mem_cons_iff, not_emits_noobj e ho p]
        · by_cases hk : e.segment.kind = SegKind.other
          · rw [processEntries_cons_err built out e es _
              (processEntry_unsupported built e ch cs htl hch op ho hk)] at herr
            exact absurd herr (by simp)
          · obtain ⟨s, hpe, -⟩ := processEntry_emit built e ch cs htl hch op ho hk
            rw [processEntries_cons_ok built out e es _ s hpe] at herr ⊢
            have hnd' : (if pathSuffix op = ".o" then addBuilt built op else built).Nodup := by
              split
              · exact nodup_addBuilt op hnd
              · exact hnd
            obtain ⟨h1, h2⟩ := ih _ (out ++ s) herr hnd'
            refine ⟨h1, fun p => ?_⟩
            rw [h2 p]
            simp only [List.exists_mem_cons_iff,
              emits_iff_eq e ch cs htl hch op ho hk p]
            by_cases hsuf : pathSuffix op = ".o"
            · simp only [if_pos hsuf, mem_addBuilt]
              by_cases hpo : p = op
              · subst hpo
                simp [hsuf]
              · simp [hpo]
            · simp only [if_neg hsuf]
              by_cases hpo : p = op
              · subst hpo
                simp [hsuf]
              · simp [hpo]

end ICO

namespace ICO

theorem processEntry_ok_stmts (built : List String) (e : LinkerEntry)
    (b : List String) (s : List Stmt) (h : processEntry built e = .ok (b, s)) :
    ∀ ed, Stmt.build ed ∈ s → ed.rule = "as" ∨ ed.rule = "cc" := by
  rcases htl : e.segment.type.toList with _ | ⟨ch, cs⟩
  · rw [processEntry_empty built e htl] at h
    exact absurd h (by simp)
  · by_cases hch : ch = '.'
    · rw [processEntry_marker built e ch cs htl hch] at h
      simp only [Except.ok.injEq, Prod.mk.injEq] at h
      obtain ⟨-, h2⟩ := h
      subst h2
      simp
    · rcases ho : e.object_path with _ | op
      · rw [processEntry_noobj built e ch cs htl hch ho] at h
        simp only [Except.ok.injEq, Prod.mk.injEq] at h
        obtain ⟨-, h2⟩ := h
        subst h2
        simp
      · by_cases hk : e.segment.kind = SegKind.other
        · rw [processEntry_unsupported built e ch cs htl hch op ho hk] at h
          exact absurd h (by simp)
        · obtain ⟨s', hpe, hs'⟩ := processEntry_emit built e ch cs htl hch op ho hk
          rw [hpe] at h
          simp only [Except.ok.injEq, Prod.mk.injEq] at h
          obtain ⟨-, h2⟩ := h
          subst h2
          exact hs'

theorem processEntries_out_as_cc (es : List LinkerEntry) :
    ∀ (built : List String) (out : List Stmt),
      (∀ b, Stmt.build b ∈ out → b.rule = "as" ∨ b.rule = "cc") →
      ∀ b, Stmt.build b ∈ (processEntries built out es).2.1 →
        b.rule = "as" ∨ b.rule = "cc" := by
  induction es with
  | nil =>
    intro built out h
    simpa [processEntries_nil] using h
  | cons e es ih =>
    intro built out hout
    rcases hpe : processEntry built e with err | ⟨b', s⟩
    · rw [processEntries_cons_err built out e es err hpe]
      simpa using hout
    · rw [processEntries_cons_ok built out e es b' s hpe]
      apply ih
      intro b hb
      rcases List.mem_append.mp hb with hb | hb
      · exact hout b hb
      · exact processEntry_ok_stmts built e b' s hpe b hb

theorem processEntries_unsupported (es : List LinkerEntry) :
    ∀ (built : List String) (out : List Stmt),
      (∀ e ∈ es, e.segment.type ≠ "") → (∃ e ∈ es, isUnsupported e) →
      ∃ t, (processEntries built out es).2.2 = some (.unsupportedSegment t) ∧
        ∃ e ∈ es, isUnsupported e ∧ e.segment.type = t := by
  induction es with
  | nil =>
    intro _ _ _ hex
    simp at hex
  | cons e es ih =>
    intro built out hne hex
    obtain ⟨ch, cs, htl⟩ := string_toList_cons_of_ne_empty (hne e (List.mem_cons_self e es))
    by_cases hch : ch = '.'
    · have hnot : ¬ isUnsupported e := by
        rintro ⟨-, hh, -, -⟩
        apply hh
        rw [htl, hch]
        simp
      have hex' : ∃ e' ∈ es, isUnsupported e' := by
        rcases hex with ⟨e', he', hu⟩
        rcases List.mem_cons.mp he' with rfl | he'
        · exact absurd hu hnot
        · exact ⟨e', he', hu⟩
      rw [processEntries_cons_ok built out e es built []
        (processEntry_marker built e ch cs htl hch)]
      obtain ⟨t, h1, e', he', hu, ht⟩ :=
        ih built (out ++ []) (fun e' he' => hne e' (List.mem_cons_of_mem _ he')) hex'
      exact ⟨t, h1, e', List.mem_cons_of_mem _ he', hu, ht⟩
    · rcases ho : e.object_path with _ | op
      · have hnot : ¬ isUnsupported e := by
          rintro ⟨-, -, hop, -⟩
          exact hop ho
        have hex' : ∃ e' ∈ es, isUnsupported e' := by
          rcases hex with ⟨e', he', hu⟩
          rcases List.mem_cons.mp he' with rfl | he'
          · exact absurd hu hnot
          · exact ⟨e', he', hu⟩
        rw [processEntries_cons_ok built out e es built []
          (processEntry_noobj built e ch cs htl hch ho)]
        obtain ⟨t, h1, e', he', hu, ht⟩ :=
          ih built (out ++ []) (fun e' he' => hne e' (List.mem_cons_of_mem _ he')) hex'
        exact ⟨t, h1, e', List.mem_cons_of_mem _ he', hu, ht⟩
      · by_cases hk : e.segment.kind = SegKind.other
        · rw [processEntries_cons_err built out e es _
            (processEntry_unsupported built e ch cs htl hch op ho hk)]
          refine ⟨e.segment.type, rfl, e, List.mem_cons_self e es,
            ⟨hne e (List.mem_cons_self e es), ?_, ?_, hk⟩, rfl⟩
          · rw [htl]
            simpa using hch
          · rw [ho]
            simp
        · have hnot : ¬ isUnsupported e := by
            rintro ⟨-, -, -, hk'⟩
            exact hk hk'
          have hex' : ∃ e' ∈ es, isUnsupported e' := by
            rcases hex with ⟨e', he', hu⟩
            rcases List.mem_cons.mp he' with rfl | he'
            · exact absurd hu hnot
            · exact ⟨e', he', hu⟩
          obtain ⟨s, hpe, -⟩ := processEntry_emit built e ch cs htl hch op ho hk
          rw [processEntries_cons_ok built out e es _ s hpe]
          obtain ⟨t, h1, e', he', hu, ht⟩ :=
            ih _ (out ++ s) (fun e' he' => hne e' (List.mem_cons_of_mem _ he')) hex'
          exact ⟨t, h1, e', List.mem_cons_of_mem _ he', hu, ht⟩

theorem processEntries_no_indexError (es : List LinkerEntry) :
    ∀ (built : List String) (out : List Stmt),
      (∀ e ∈ es, e.segment.type ≠ "") →
      (processEntries built out es).2.2 ≠ some EmitError.indexError := by
  induction es with
  | nil =>
    intro built out _
    simp [processEntries_nil]
  | cons e es ih =>
    intro built out hne
    obtain ⟨ch, cs, htl⟩ := string_toList_cons_of_ne_empty (hne e (List.mem_cons_self e es))
    by_cases hch : ch = '.'
    · rw [processEntries_cons_ok built out e es built []
        (processEntry_marker built e ch cs htl hch)]
      exact ih built (out ++ []) fun e' he' => hne e' (List.mem_cons_of_mem _ he')
    · rcases ho : e.object_path with _ | op
      · rw [processEntries_cons_ok built out e es built []
          (processEntry_noobj built e ch cs htl hch ho)]
        exact ih built (out ++ []) fun e' he' => hne e' (List.mem_cons_of_mem _ he')
      · by_cases hk : e.segment.kind = SegKind.other
        · rw [processEntries_cons_err built out e es _
            (processEntry_unsupported built e ch cs htl hch op ho hk)]
          simp
        · obtain ⟨s, hpe, -⟩ := processEntry_emit built e ch cs htl hch op ho hk
          rw [processEntries_cons_ok built out e es _ s hpe]
          exact ih _ (out ++ s) fun e' he' => hne e' (List.mem_cons_of_mem _ he')

end ICO

namespace ICO

/-- C3: For every linker entry whose segment is one of the assemble-eligible
classes (`CommonSegAsm`, `CommonSegData`, `CommonSegDatabin`,
`CommonSegRodatabin`), whose (necessarily non-empty) tag does not begin with
the marker character `'.'`, and whose object path is present, exactly one build
edge using the `as` rule is produced, with inputs equal to the entry's source
paths and output equal to its object path. -/
theorem C3_assemble_edge (built : List String) (e : LinkerEntry) (op : String)
    (hk : e.segment.kind = SegKind.asm ∨ e.segment.kind = SegKind.data ∨
      e.segment.kind = SegKind.databin ∨ e.segment.kind = SegKind.rodatabin)
    (hne : e.segment.type ≠ "")
    (hm : e.segment.type.toList.head? ≠ some '.')
    (ho : e.object_path = some op) :
    processEntry built e =
      .ok (if pathSuffix op = ".o" then addBuilt built op else built,
        [Stmt.build ⟨[op], "as", e.src_paths, [], [("override", "")], []⟩]) := by
  obtain ⟨ch, cs, htl⟩ := string_toList_cons_of_ne_empty hne
  have hch : ch ≠ '.' := by
    rw [htl] at hm
    simpa using hm
  have h' : e.segment.type.data = ch :: cs := htl
  rcases hk with hk | hk | hk | hk <;>
    simp [processEntry, h', hch, ho, hk, build_singleton]

theorem C3_witness : processEntry [] ⟨⟨"asm", SegKind.asm⟩, some "m.o", ["m.s"]⟩ =
    .ok (["m.o"], [Stmt.build ⟨["m.o"], "as", ["m.s"], [], [("override", "")], []⟩]) :=
  (C3_assemble_edge [] ⟨⟨"asm", SegKind.asm⟩, some "m.o", ["m.s"]⟩ "m.o"
    (Or.inl rfl) (by decide) (by decide) rfl).trans (by rfl)

/-- C4: For every linker entry whose segment is of the compiled-C class
(`CommonSegC`), whose (necessarily non-empty) tag does not begin with the
marker character `'.'`, and whose object path is present, exactly one build
edge using the `cc` rule is produced, with inputs equal to the entry's source
paths and output equal to its object path. -/
theorem C4_compile_edge (built : List String) (e : LinkerEntry) (op : String)
    (hk : e.segment.kind = SegKind.c)
    (hne : e.segment.type ≠ "")
    (hm : e.segment.type.toList.head? ≠ some '.')
    (ho : e.object_path = some op) :
    processEntry built e =
      .ok (if pathSuffix op = ".o" then addBuilt built op else built,
        [Stmt.build ⟨[op], "cc", e.src_paths, [], [], []⟩]) := by
  obtain ⟨ch, cs, htl⟩ := string_toList_cons_of_ne_empty hne
  have hch : ch ≠ '.' := by
    rw [htl] at hm
    simpa using hm
  have h' : e.segment.type.data = ch :: cs := htl
  simp [processEntry, h', hch, ho, hk, build_singleton]

theorem C4_witness : processEntry [] ⟨⟨"c", SegKind.c⟩, some "n.o", ["n.c"]⟩ =
    .ok (["n.o"], [Stmt.build ⟨["n.o"], "cc", ["n.c"], [], [], []⟩]) :=
  (C4_compile_edge [] ⟨⟨"c", SegKind.c⟩, some "n.o", ["n.c"]⟩ "n.o"
    rfl (by decide) (by decide) rfl).trans (by rfl)

/-- C5: Every entry whose segment-type tag begins with the marker character
`'.'` or whose object path is absent produces no build edge (this also covers
the empty-tag case, where the iteration raises and still writes nothing). -/
theorem C5_skip_no_edge (built : List String) (e : LinkerEntry)
    (h : e.segment.type.toList.head? = some '.' ∨ e.object_path = none) :
    stmtsOf (processEntry built e) = [] := by
  rcases htl : e.segment.type.toList with _ | ⟨ch, cs⟩
  · rw [processEntry_empty built e htl]
    rfl
  · by_cases hch : ch = '.'
    · rw [processEntry_marker built e ch cs htl hch]
      rfl
    · rcases h with hm | ho
      · rw [htl] at hm
        simp at hm
        exact absurd hm hch
      · rw [processEntry_noobj built e ch cs htl hch ho]
        rfl

theorem C5_witness :
    stmtsOf (processEntry [] ⟨⟨".text", SegKind.asm⟩, some "t.o", ["t.s"]⟩) = [] ∧
      stmtsOf (processEntry [] ⟨⟨"bin", SegKind.databin⟩, none, ["u.bin"]⟩) = [] :=
  ⟨C5_skip_no_edge [] ⟨⟨".text", SegKind.asm⟩, some "t.o", ["t.s"]⟩ (Or.inl (by decide)),
    C5_skip_no_edge [] ⟨⟨"bin", SegKind.databin⟩, none, ["u.bin"]⟩ (Or.inr rfl)⟩

end ICO

namespace ICO

/-- C6: On an error-free run, after all per-entry edges the emitter writes
exactly three trailing edges in order: the link edge (output the pre-final
image, input the linker script, the map-file path passed as the `mapfile`
variable and the tracked objects as implicit inputs), the raw-binary
extraction edge (pre-final image to final image), and the checksum edge
(digest file as input, final image as implicit dependency, sentinel `.ok` file
as output). -/
theorem C6_trailing_edges (root : String) (entries : List LinkerEntry)
    (h : (build_stuff root entries).err = none) :
    ∃ pre, (build_stuff root entries).output =
      pre ++
        [Stmt.build ⟨[PRE_ELF_PATH], "ld", [LD_PATH],
            (build_stuff root entries).builtObjects, [("mapfile", MAP_PATH)], []⟩,
          Stmt.build ⟨[ELF_PATH], "elf", [PRE_ELF_PATH], [], [], []⟩,
          Stmt.build ⟨[ELF_PATH ++ ".ok"], "sha1sum",
            ["checksum-" ++ BASENAME ++ ".sha1"], [ELF_PATH], [], []⟩] := by
  rcases hpe : processEntries [] [] entries with ⟨built, out, err⟩
  cases err with
  | some er =>
    rw [build_stuff_err root entries built out er hpe] at h
    exact absurd h (by simp)
  | none =>
    rw [build_stuff_ok root entries built out hpe]
    exact ⟨rules root ++ out, by simp [ldEdge, elfEdge, shaEdge]⟩

theorem C6_witness :
    ∃ pre, (build_stuff "" []).output =
      pre ++
        [Stmt.build ⟨[PRE_ELF_PATH], "ld", [LD_PATH],
            (build_stuff "" []).builtObjects, [("mapfile", MAP_PATH)], []⟩,
          Stmt.build ⟨[ELF_PATH], "elf", [PRE_ELF_PATH], [], [], []⟩,
          Stmt.build ⟨[ELF_PATH ++ ".ok"], "sha1sum",
            ["checksum-" ++ BASENAME ++ ".sha1"], [ELF_PATH], [], []⟩] :=
  C6_trailing_edges "" [] rfl

/-- C2: On an error-free run, the tracked-object list that becomes the
trailing link edge's implicit-input list has no duplicates and contains
exactly the object paths with suffix `.o` of the entries that emitted an
edge, and the output ends with the trailing edges built from that list. -/
theorem C2_link_inputs (root : String) (entries : List LinkerEntry)
    (h : (build_stuff root entries).err = none) :
    (build_stuff root entries).builtObjects.Nodup ∧
      (∀ p, p ∈ (build_stuff root entries).builtObjects ↔
        (pathSuffix p = ".o" ∧ ∃ e ∈ entries, emits e p)) ∧
      ∃ pre, (build_stuff root entries).output =
        pre ++ [ldEdge (build_stuff root entries).builtObjects, elfEdge, shaEdge] := by
  rcases hpe : processEntries [] [] entries with ⟨built, out, err⟩
  cases err with
  | some er =>
    rw [build_stuff_err root entries built out er hpe] at h
    exact absurd h (by simp)
  | none =>
    have hspec := processEntries_built_spec entries [] [] (by rw [hpe]) List.nodup_nil
    rw [hpe] at hspec
    dsimp only at hspec
    rw [build_stuff_ok root entries built out hpe]
    dsimp only
    refine ⟨hspec.1, fun p => ?_, ⟨rules root ++ out, by simp⟩⟩
    rw [hspec.2 p]
    simp

theorem C2_witness :
    (build_stuff ""
        [⟨⟨"c", SegKind.c⟩, some "a.o", ["a.c"]⟩,
          ⟨⟨"c", SegKind.c⟩, some "a.o", ["a2.c"]⟩,
          ⟨⟨"data", SegKind.data⟩, some "b.bin", ["b.s"]⟩]).builtObjects.Nodup ∧
      (∀ p, p ∈ (build_stuff ""
        [⟨⟨"c", SegKind.c⟩, some "a.o", ["a.c"]⟩,
          ⟨⟨"c", SegKind.c⟩, some "a.o", ["a2.c"]⟩,
          ⟨⟨"data", SegKind.data⟩, some "b.bin", ["b.s"]⟩]).builtObjects ↔
        (pathSuffix p = ".o" ∧ ∃ e ∈
          [⟨⟨"c", SegKind.c⟩, some "a.o", ["a.c"]⟩,
            ⟨⟨"c", SegKind.c⟩, some "a.o", ["a2.c"]⟩,
            ⟨⟨"data", SegKind.data⟩, some "b.bin", ["b.s"]⟩], emits e p)) ∧
      ∃ pre, (build_stuff ""
        [⟨⟨"c", SegKind.c⟩, some "a.o", ["a.c"]⟩,
          ⟨⟨"c", SegKind.c⟩, some "a.o", ["a2.c"]⟩,
          ⟨⟨"data", SegKind.data⟩, some "b.bin", ["b.s"]⟩]).output =
        pre ++ [ldEdge (build_stuff ""
          [⟨⟨"c", SegKind.c⟩, some "a.o", ["a.c"]⟩,
            ⟨⟨"c", SegKind.c⟩, some "a.o", ["a2.c"]⟩,
            ⟨⟨"data", SegKind.data⟩, some "b.bin", ["b.s"]⟩]).builtObjects,
          elfEdge, shaEdge] :=
  C2_link_inputs ""
    [⟨⟨"c", SegKind.c⟩, some "a.o", ["a.c"]⟩,
      ⟨⟨"c", SegKind.c⟩, some "a.o", ["a2.c"]⟩,
      ⟨⟨"data", SegKind.data⟩, some "b.bin", ["b.s"]⟩] (by decide)

/-- C7: `clean` removes the cache file `.splache`, the generated linker script
and the whole `asm`, `assets` and `build` trees, and leaves everything under
`src` unchanged; `--cleansrc` removes only the `src` tree, leaving the cache
file, the linker script and the three artifact trees unchanged. -/
theorem C7_clean_frame (fs : FS) :
    clean fs [".splache"] = false ∧
      clean fs [LD_PATH] = false ∧
      (∀ rest, clean fs ("asm" :: rest) = false) ∧
      (∀ rest, clean fs ("assets" :: rest) = false) ∧
      (∀ rest, clean fs ("build" :: rest) = false) ∧
      (∀ rest, clean fs ("src" :: rest) = fs ("src" :: rest)) ∧
      (∀ rest, cleanSrc fs ("src" :: rest) = false) ∧
      cleanSrc fs [".splache"] = fs [".splache"] ∧
      cleanSrc fs [LD_PATH] = fs [LD_PATH] ∧
      (∀ rest, cleanSrc fs ("asm" :: rest) = fs ("asm" :: rest)) ∧
      (∀ rest, cleanSrc fs ("assets" :: rest) = fs ("assets" :: rest)) ∧
      (∀ rest, cleanSrc fs ("build" :: rest) = fs ("build" :: rest)) :=
  ⟨rfl, rfl, fun _ => rfl, fun _ => rfl, fun _ => rfl, fun _ => rfl, fun _ => rfl,
    rfl, rfl, fun _ => rfl, fun _ => rfl, fun _ => rfl⟩

end ICO

namespace ICO

/-- C1 counterexample: on a single unsupported entry the run errs with the
unsupported-segment diagnostic, yet the build-graph file has been written: it
already contains the five rule declarations (the writer opens and writes the
file before the entry loop), so "does not write a build-graph file" fails. -/
theorem C1_counterexample :
    (build_stuff "" [⟨⟨"bad", SegKind.other⟩, some "foo.o", ["foo.s"]⟩]).err =
        some (.unsupportedSegment "bad") ∧
      (build_stuff "" [⟨⟨"bad", SegKind.other⟩, some "foo.o", ["foo.s"]⟩]).output.length = 5 ∧
      (build_stuff "" [⟨⟨"bad", SegKind.other⟩, some "foo.o", ["foo.s"]⟩]).output ≠ [] := by
  refine ⟨rfl, rfl, ?_⟩
  intro hnil
  have hlen : (build_stuff ""
      [⟨⟨"bad", SegKind.other⟩, some "foo.o", ["foo.s"]⟩]).output.length = 5 := rfl
  rw [hnil] at hlen
  exact absurd hlen (by simp)

/-- C1 (amended): for a list of entries with non-empty tags containing an
unsupported one (tag not starting with the marker, object path present,
unrecognised class), the run ends with the unsupported-segment error naming
such an entry's tag, the exit status is non-zero, the diagnostic names the
tag, and a partial build-graph file is written: non-empty, and containing no
trailing link/extraction/checksum edges (every build edge in it uses the `as`
or `cc` rule). -/
theorem C1_amended (root : String) (entries : List LinkerEntry)
    (hne : ∀ e ∈ entries, e.segment.type ≠ "")
    (hex : ∃ e ∈ entries, isUnsupported e) :
    ∃ t, (build_stuff root entries).err = some (.unsupportedSegment t) ∧
      (∃ e ∈ entries, isUnsupported e ∧ e.segment.type = t) ∧
      exitCode (build_stuff root entries).err ≠ 0 ∧
      diagnostic (build_stuff root entries).err =
        some ("ERROR: Unsupported build segment type " ++ t) ∧
      (build_stuff root entries).output ≠ [] ∧
      ∀ b, Stmt.build b ∈ (build_stuff root entries).output →
        b.rule = "as" ∨ b.rule = "cc" := by
  obtain ⟨t, herr, hwit⟩ := processEntries_unsupported entries [] [] hne hex
  rcases hpe : processEntries [] [] entries with ⟨built, out, err⟩
  rw [hpe] at herr
  dsimp only at herr
  subst herr
  rw [build_stuff_err root entries built out _ hpe]
  dsimp only
  refine ⟨t, rfl, hwit, by simp [exitCode], rfl, ?_, ?_⟩
  · intro hnil
    have hlen := congrArg List.length hnil
    simp [rules] at hlen
  · intro b hb
    rcases List.mem_append.mp hb with hb | hb
    · exfalso
      simp [rules] at hb
    · exact processEntries_out_as_cc entries [] [] (by simp) b (by rw [hpe]; exact hb)

theorem C1_witness :
    exitCode (build_stuff ""
        [⟨⟨"lib", SegKind.other⟩, some "bar.o", ["bar.s"]⟩]).err ≠ 0 ∧
      (build_stuff "" [⟨⟨"lib", SegKind.other⟩, some "bar.o", ["bar.s"]⟩]).output ≠ [] := by
  obtain ⟨t, -, -, h3, -, h5, -⟩ :=
    C1_amended "" [⟨⟨"lib", SegKind.other⟩, some "bar.o", ["bar.s"]⟩]
      (by intro e he; rw [List.mem_singleton] at he; subst he; decide)
      ⟨⟨⟨"lib", SegKind.other⟩, some "bar.o", ["bar.s"]⟩, by simp,
        by refine ⟨by decide, by decide, by decide, rfl⟩⟩
  exact ⟨h3, h5⟩

/-- C8 counterexample: an entry with an absent object path but an empty
segment-type tag is not silently skipped: the marker check `seg.type[0]`
raises `IndexError` before the object-path check, and the process dies with a
non-zero status. -/
theorem C8_counterexample :
    processEntry [] ⟨⟨"", SegKind.other⟩, none, []⟩ = .error .indexError ∧
      (build_stuff "" [⟨⟨"", SegKind.other⟩, none, []⟩]).err = some .indexError ∧
      exitCode (build_stuff "" [⟨⟨"", SegKind.other⟩, none, []⟩]).err = 1 :=
  ⟨rfl, rfl, rfl⟩

/-- C8 (amended): every entry whose object path is absent and whose
segment-type tag is non-empty is skipped without error and without
terminating the process, even when the segment class is unrecognised: the
absent-object-path skip precedes the unsupported-segment failure.  (With an
empty tag the iteration instead raises the index error of C10.) -/
theorem C8_amended (built : List String) (e : LinkerEntry)
    (ho : e.object_path = none) (hne : e.segment.type ≠ "") :
    processEntry built e = .ok (built, []) := by
  obtain ⟨ch, cs, htl⟩ := string_toList_cons_of_ne_empty hne
  by_cases hch : ch = '.'
  · exact processEntry_marker built e ch cs htl hch
  · exact processEntry_noobj built e ch cs htl hch ho

theorem C8_witness :
    processEntry [] ⟨⟨"bss", SegKind.other⟩, none, []⟩ = .ok ([], []) :=
  C8_amended [] ⟨⟨"bss", SegKind.other⟩, none, []⟩ rfl (by decide)

/-- C9: the `--clean` and `--cleansrc` command-line paths exit with status 0;
the default split-then-emit path exits 0 exactly when `build_stuff` finishes
without error, and in particular exits non-zero on an unsupported segment
type (the only domain error the script raises). -/
theorem C9_exit_codes (root : String) (entries : List LinkerEntry) (args : Args) :
    (args.clean = true → mainExitCode args root entries = 0) ∧
      (args.clean = false → args.cleansrc = true → mainExitCode args root entries = 0) ∧
      (args.clean = false → args.cleansrc = false →
        ((mainExitCode args root entries = 0 ↔ (build_stuff root entries).err = none) ∧
          ∀ t, (build_stuff root entries).err = some (.unsupportedSegment t) →
            mainExitCode args root entries ≠ 0)) := by
  refine ⟨?_, ?_, ?_⟩
  · intro hc
    simp [mainExitCode, hc]
  · intro hc hcs
    simp [mainExitCode, hc, hcs]
  · intro hc hcs
    constructor
    · rcases herr : (build_stuff root entries).err with _ | er
      · simp [mainExitCode, hc, hcs, herr, exitCode]
      · simp [mainExitCode, hc, hcs, herr, exitCode]
    · intro t ht
      simp [mainExitCode, hc, hcs, ht, exitCode]

theorem C9_witness :
    mainExitCode ⟨true, false⟩ "" [] = 0 ∧
      mainExitCode ⟨false, true⟩ "" [] = 0 ∧
      (mainExitCode ⟨false, false⟩ "" [] = 0 ↔ (build_stuff "" []).err = none) :=
  ⟨(C9_exit_codes "" [] ⟨true, false⟩).1 rfl,
    (C9_exit_codes "" [] ⟨false, true⟩).2.1 rfl rfl,
    ((C9_exit_codes "" [] ⟨false, false⟩).2.2 rfl rfl).1⟩

/-- C10: an entry whose segment-type tag is the empty string makes the marker
check `seg.type[0]` raise an out-of-range error (not a skip, not the
unsupported-segment diagnostic), and when every entry's tag is non-empty the
emitter never raises that index error: it is total exactly under that
precondition. -/
theorem C10_empty_tag :
    (∀ (built : List String) (e : LinkerEntry), e.segment.type = "" →
        processEntry built e = .error .indexError) ∧
      ∀ (root : String) (entries : List LinkerEntry),
        (∀ e ∈ entries, e.segment.type ≠ "") →
        (build_stuff root entries).err ≠ some .indexError := by
  constructor
  · intro built e he
    apply processEntry_empty
    rw [he]
    rfl
  · intro root entries hne hix
    have hni := processEntries_no_indexError entries [] [] hne
    rcases hpe : processEntries [] [] entries with ⟨built, out, err⟩
    rw [hpe] at hni
    dsimp only at hni
    cases err with
    | none =>
      rw [build_stuff_ok root entries built out hpe] at hix
      exact absurd hix (by simp)
    | some er =>
      rw [build_stuff_err root entries built out er hpe] at hix
      dsimp only at hix
      exact hni hix

theorem C10_witness :
    processEntry [] ⟨⟨"", SegKind.asm⟩, some "x.o", ["x.s"]⟩ = .error .indexError :=
  C10_empty_tag.1 [] ⟨⟨"", SegKind.asm⟩, some "x.o", ["x.s"]⟩ rfl

end ICO
